import Mathlib

/-!
Shallow embedding of the PNG viewer's decoding pipeline (src/main.rs).

Machine integers are modelled as `Nat`; the Rust `as u8` narrowing casts are
modelled with `% 256` (for the non-negative intermediate values that occur
here this agrees with two's-complement truncation), and the `i32`
intermediates of the Paeth predictor are modelled as `Int`.  Code that can
panic (out-of-range indexing, `unwrap`) is modelled with `Option`, a panic
becoming `none`.  The zlib decompressor is an external collaborator and is
passed in as an oracle of type `List Nat → Option (List Nat)`.
-/

/-- The `Pixel` struct: four `u8` channels.  `#[derive(Default)]` gives the
all-zero pixel. -/
structure Pixel where
  r : Nat
  g : Nat
  b : Nat
  a : Nat
  deriving DecidableEq, Repr

/-- `Default::default()` for `Pixel`: every channel zero. -/
def defaultPixel : Pixel := ⟨0, 0, 0, 0⟩

/-- `PngReader::paeth`: the Paeth predictor.  All intermediates are `i32`
(`Int` here); the final value is one of the inputs cast back to `u8`. -/
def paeth (a b c : Nat) : Nat :=
  let ai : Int := a
  let bi : Int := b
  let ci : Int := c
  let p : Int := ai + bi - ci
  let pa : Nat := (p - ai).natAbs
  let pb : Nat := (p - bi).natAbs
  let pc : Nat := (p - ci).natAbs
  if pa ≤ pb ∧ pa ≤ pc then a % 256
  else if pb ≤ pc then b % 256
  else c % 256

/-- `PngReader::remove_filter`: reconstruct one byte from its filtered value
`x` and the neighbour bytes `a` (left), `b` (up), `c` (upper-left).  The
arithmetic is done in `i32` and the result is cast to `u8` (`% 256`).  For a
filter type outside `{0,1,2,3,4}` the Rust `match` falls through to `_ => 0`. -/
def remove_filter (filter_type x a b c : Nat) : Nat :=
  match filter_type with
  | 0 => x
  | 1 => (((x : Int) + (a : Int)) % 256).toNat
  | 2 => (((x : Int) + (b : Int)) % 256).toNat
  | 3 => (((x : Int) + ((a : Int) + (b : Int)) / 2) % 256).toNat
  | 4 => (((x : Int) + (paeth a b c : Int)) % 256).toNat
  | _ => 0

/-- Modelled from the spec: the reference forward filter function, absent from
the source (the repository only decodes).  It subtracts the type-`t`
prediction from the raw byte modulo 256, the prediction being the same one
`remove_filter` adds back: 0, left, up, truncated average, or Paeth. -/
def apply_filter (filter_type r a b c : Nat) : Nat :=
  match filter_type with
  | 0 => (((r : Int)) % 256).toNat
  | 1 => (((r : Int) - (a : Int)) % 256).toNat
  | 2 => (((r : Int) - (b : Int)) % 256).toNat
  | 3 => (((r : Int) - ((a : Int) + (b : Int)) / 2) % 256).toNat
  | 4 => (((r : Int) - (paeth a b c : Int)) % 256).toNat
  | _ => r

/-- The per-colour-type channel count computed at the top of
`PngReader::decode_image_data`; the Rust `_ => panic!` arm becomes `none`. -/
def color_len : Nat → Option Nat
  | 0 => some 1
  | 2 => some 3
  | 3 => some 1
  | 4 => some 2
  | 6 => some 4
  | _ => none

/-- The body of the `match self.colour_type` inside the pixel loop of
`decode_image_data`: reads the channel bytes of one pixel starting at `idx`
in the decompressed buffer, defilters each against the same channel of the
neighbour pixels `a`, `b`, `c`, and assembles the RGBA pixel.  Colour types
0 and 2 force alpha to `0xFF`; any other colour type (the `_ => {}` arm,
reached for indexed colour 3) leaves the pre-pushed default pixel in place. -/
def decode_pixel (ct ft : Nat) (data : List Nat) (idx : Nat) (a b c : Pixel) :
    Option Pixel :=
  if ct = 0 ∨ ct = 4 then do
    let x0 ← data.get? idx
    let pixel_r := remove_filter ft x0 a.r b.r c.r
    let pixel_a ←
      if ct = 0 then some 255
      else do
        let x1 ← data.get? (idx + 1)
        some (remove_filter ft x1 a.a b.a c.a)
    some ⟨pixel_r, pixel_r, pixel_r, pixel_a⟩
  else if ct = 2 ∨ ct = 6 then do
    let pixel_a ←
      if ct = 2 then some 255
      else do
        let x3 ← data.get? (idx + 3)
        some (remove_filter ft x3 a.a b.a c.a)
    let x0 ← data.get? idx
    let x1 ← data.get? (idx + 1)
    let x2 ← data.get? (idx + 2)
    some ⟨remove_filter ft x0 a.r b.r c.r, remove_filter ft x1 a.g b.g c.g,
          remove_filter ft x2 a.b b.b c.b, pixel_a⟩
  else some defaultPixel

/-- The inner `for w in 0..width` loop of `decode_image_data`.  `cur` is the
part of row `h` already written (cells `0..w`), `prev` is the fully
reconstructed previous row, `idx` the cursor into the decompressed buffer.
The neighbour pixels are the already-reconstructed left, up and upper-left
cells, with the all-zero default at the row/column boundaries. -/
def decode_row_aux (ct ft cl : Nat) (data : List Nat) (h : Nat)
    (prev : List Pixel) :
    Nat → List Pixel → Nat → Nat → Option (List Pixel)
  | 0, cur, _, _ => some cur
  | n + 1, cur, idx, w =>
    Option.bind (if w = 0 then some defaultPixel else cur.get? (w - 1)) fun pa =>
    Option.bind (if h = 0 then some defaultPixel else prev.get? w) fun pb =>
    Option.bind (if w = 0 ∨ h = 0 then some defaultPixel else prev.get? (w - 1))
      fun pc =>
    Option.bind (decode_pixel ct ft data idx pa pb pc) fun px =>
    decode_row_aux ct ft cl data h prev n (cur ++ [px]) (idx + cl) (w + 1)

/-- One iteration of the `for h in 0..height` loop: read the filter-type byte
at the row's start offset `(width * color_len + 1) * h`, then reconstruct the
row's `width` pixels. -/
def decode_row (ct cl : Nat) (data : List Nat) (W h : Nat)
    (prev : List Pixel) : Option (List Pixel) :=
  Option.bind (data.get? ((W * cl + 1) * h)) fun ft =>
  decode_row_aux ct ft cl data h prev W [] ((W * cl + 1) * h + 1) 0

/-- The outer row loop of `decode_image_data`: `acc` is the grid built so
far, `prev` the last reconstructed row. -/
def decode_rows_loop (ct cl : Nat) (data : List Nat) (W : Nat) :
    Nat → Nat → List (List Pixel) → List Pixel →
    Option (List (List Pixel))
  | 0, _, acc, _ => some acc
  | n + 1, h, acc, prev =>
    Option.bind (decode_row ct cl data W h prev) fun row =>
    decode_rows_loop ct cl data W n (h + 1) (acc ++ [row]) row

/-- Scanline reconstruction over the decompressed buffer `data`: builds the
`H × W` pixel grid row by row, top to bottom. -/
def decode_rows (ct cl : Nat) (data : List Nat) (W H : Nat) :
    Option (List (List Pixel)) :=
  decode_rows_loop ct cl data W H 0 [] []

/-- The mutable state of `PngReader` (minus the input bytes, passed
separately): the seven IHDR header fields and the accumulated compressed
image data. -/
structure PngReader where
  width : Nat
  height : Nat
  bit_depth : Nat
  colour_type : Nat
  compression_method : Nat
  filter_method : Nat
  interlace_method : Nat
  image_data : List Nat
  deriving DecidableEq, Repr

/-- `PngReader::new`: every header field zero, no image data. -/
def PngReader.new : PngReader :=
  { width := 0, height := 0, bit_depth := 0, colour_type := 0,
    compression_method := 0, filter_method := 0, interlace_method := 0,
    image_data := [] }

/-- `PngReader::decode_image_data`: inflate the accumulated IDAT bytes
(the zlib decompressor is the external oracle `inflate`; its `unwrap` on
failure becomes `none`), resolve the channel stride from the colour type,
and reconstruct the pixel grid. -/
def decode_image_data (inflate : List Nat → Option (List Nat))
    (st : PngReader) : Option (List (List Pixel)) :=
  Option.bind (inflate st.image_data) fun data =>
  Option.bind (color_len st.colour_type) fun cl =>
  decode_rows st.colour_type cl data st.width st.height

/-- `u32::from_be_bytes` on four bytes. -/
def be_u32 (b0 b1 b2 b3 : Nat) : Nat :=
  ((b0 * 256 + b1) * 256 + b2) * 256 + b3

/-- A Rust slice `l[s..e]`: panics (`none`) unless `s ≤ e ≤ l.length`. -/
def slice? (l : List Nat) (s e : Nat) : Option (List Nat) :=
  if s ≤ e ∧ e ≤ l.length then some ((l.drop s).take (e - s)) else none

/-- Whether a byte is a UTF-8 continuation byte (`0x80..0xBF`). -/
def utf8Cont (b : Nat) : Bool := 128 ≤ b && b < 192

/-- `std::str::from_utf8` validity of a byte sequence (RFC 3629: no
overlong forms, no surrogates, maximum U+10FFFF). -/
def utf8Valid : List Nat → Bool
  | [] => true
  | b :: rest =>
    if b < 128 then utf8Valid rest
    else if b < 194 then false
    else if b < 224 then
      match rest with
      | b1 :: r => utf8Cont b1 && utf8Valid r
      | [] => false
    else if b < 240 then
      match rest with
      | b1 :: b2 :: r =>
        (if b = 224 then decide (160 ≤ b1) && decide (b1 < 192)
         else if b = 237 then decide (128 ≤ b1) && decide (b1 < 160)
         else utf8Cont b1) && utf8Cont b2 && utf8Valid r
      | _ => false
    else if b < 245 then
      match rest with
      | b1 :: b2 :: b3 :: r =>
        (if b = 240 then decide (144 ≤ b1) && decide (b1 < 192)
         else if b = 244 then decide (128 ≤ b1) && decide (b1 < 144)
         else utf8Cont b1) && utf8Cont b2 && utf8Cont b3 && utf8Valid r
      | _ => false
    else false

/-- The ASCII bytes of the chunk type `"IHDR"`. -/
def IHDR_tag : List Nat := [73, 72, 68, 82]

/-- The ASCII bytes of the chunk type `"IDAT"`. -/
def IDAT_tag : List Nat := [73, 68, 65, 84]

/-- The ASCII bytes of the chunk type `"tEXt"`. -/
def tEXt_tag : List Nat := [116, 69, 88, 116]

/-- The ASCII bytes of the chunk type `"tIME"`. -/
def tIME_tag : List Nat := [116, 73, 77, 69]

/-- `PngReader::read_chunk_ihdr`: reads the 13 header bytes out of the
payload (panicking — `none` — if the payload is shorter) and overwrites all
seven header fields of the reader state. -/
def read_chunk_ihdr (st : PngReader) (data : List Nat) : Option PngReader := do
  let d0 ← data.get? 0
  let d1 ← data.get? 1
  let d2 ← data.get? 2
  let d3 ← data.get? 3
  let d4 ← data.get? 4
  let d5 ← data.get? 5
  let d6 ← data.get? 6
  let d7 ← data.get? 7
  let d8 ← data.get? 8
  let d9 ← data.get? 9
  let d10 ← data.get? 10
  let d11 ← data.get? 11
  let d12 ← data.get? 12
  some { st with
    width := be_u32 d0 d1 d2 d3,
    height := be_u32 d4 d5 d6 d7,
    bit_depth := d8,
    colour_type := d9,
    compression_method := d10,
    filter_method := d11,
    interlace_method := d12 }

/-- `PngReader::read_chunk_idat`: append the payload to the accumulated
compressed image data. -/
def read_chunk_idat (st : PngReader) (data : List Nat) : PngReader :=
  { st with image_data := st.image_data ++ data }

/-- The index of the first zero byte in the payload, or `0` when there is
none (the Rust loop leaves `separator_idx` at its initial `0`). -/
def first_zero (data : List Nat) : Nat :=
  match data.findIdx? (· == 0) with
  | some i => i
  | none => 0

/-- `PngReader::read_chunk_text`: split the payload at the first zero byte
and `unwrap` UTF-8 validity of both halves; the slice `data[sep+1..]` itself
panics when the payload is empty.  Only the success/panic outcome matters to
the pipeline. -/
def read_chunk_text (data : List Nat) : Option Unit := do
  let s := first_zero data
  let keyword ← slice? data 0 s
  let txt ← slice? data (s + 1) data.length
  if utf8Valid keyword && utf8Valid txt then some () else none

/-- `PngReader::read_chunk_time`: reads payload bytes 0..6 (panicking —
`none` — when fewer than 7 are present). -/
def read_chunk_time (data : List Nat) : Option Unit := do
  let _ ← data.get? 0
  let _ ← data.get? 1
  let _ ← data.get? 2
  let _ ← data.get? 3
  let _ ← data.get? 4
  let _ ← data.get? 5
  let _ ← data.get? 6
  some ()

/-- The `match chunk_type` dispatch in `PngReader::read_chunk`: IHDR and
IDAT update the reader state, tEXt and tIME only validate their payload,
anything else is ignored. -/
def dispatch_chunk (st : PngReader) (tag data : List Nat) : Option PngReader :=
  if tag = IHDR_tag then read_chunk_ihdr st data
  else if tag = IDAT_tag then some (read_chunk_idat st data)
  else if tag = tEXt_tag then (read_chunk_text data).map fun _ => st
  else if tag = tIME_tag then (read_chunk_time data).map fun _ => st
  else some st

/-- `PngReader::read_chunk`: at cursor `idx`, read the 4 big-endian length
bytes, the 4-byte type tag (whose `from_utf8` is unwrapped), the `L` payload
bytes, dispatch on the tag, and skip 4 checksum bytes without reading them.
Returns the updated state and the new cursor `idx + 4 + 4 + L + 4`; any
out-of-range access or failed unwrap is a panic, i.e. `none`. -/
def read_chunk (bytes : List Nat) (st : PngReader) (idx : Nat) :
    Option (PngReader × Nat) :=
  Option.bind (bytes.get? idx) fun b0 =>
  Option.bind (bytes.get? (idx + 1)) fun b1 =>
  Option.bind (bytes.get? (idx + 2)) fun b2 =>
  Option.bind (bytes.get? (idx + 3)) fun b3 =>
  Option.bind (slice? bytes (idx + 4) (idx + 8)) fun tag =>
  if utf8Valid tag then
    Option.bind (slice? bytes (idx + 8) (idx + 8 + be_u32 b0 b1 b2 b3))
      fun data =>
    Option.bind (dispatch_chunk st tag data) fun st1 =>
    some (st1, idx + 8 + be_u32 b0 b1 b2 b3 + 4)
  else none

/-! ## General facts about the embedding -/

theorem get?_append_of_lt {α : Type} (l m : List α) (j : Nat)
    (h : j < l.length) : (l ++ m).get? j = l.get? j := by
  simp [List.get?_eq_getElem?, List.getElem?_append_left h]

theorem get?_snoc_length {α : Type} (l : List α) (x : α) :
    (l ++ [x]).get? l.length = some x := by
  simp [List.get?_eq_getElem?]

theorem get?_some_of_lt {α : Type} (l : List α) (j : Nat)
    (h : j < l.length) : ∃ x, l.get? j = some x := by
  simp [List.get?_eq_getElem?, List.getElem?_eq_some]
  exact ⟨l.get ⟨j, h⟩, h, rfl⟩

theorem get?_lt_of_some {α : Type} (l : List α) (j : Nat) (x : α)
    (h : l.get? j = some x) : j < l.length := by
  by_contra hc
  rw [List.get?_eq_getElem?, List.getElem?_eq_none (by omega)] at h
  exact Option.noConfusion h

/-- Loop invariant of the inner pixel loop: on success the output row extends
`cur` by `n` cells; each new cell `j` is produced by `decode_pixel` at buffer
offset `idx + (j - w) * cl` from neighbour pixels that are the
already-reconstructed cell `j - 1` of the row being built, cell `j` of the
previous row, and cell `j - 1` of the previous row, each replaced by the
all-zero default at the `w = 0` / `h = 0` boundaries. -/
theorem decode_row_aux_spec (ct ft cl : Nat) (data : List Nat) (h : Nat)
    (prev : List Pixel) :
    ∀ n cur idx w out, cur.length = w →
      decode_row_aux ct ft cl data h prev n cur idx w = some out →
      out.length = w + n ∧
      (∀ j, j < w → out.get? j = cur.get? j) ∧
      (∀ j, w ≤ j → j < w + n →
        ∃ pa pb pc,
          ((j = 0 → pa = defaultPixel) ∧
            (j ≠ 0 → out.get? (j - 1) = some pa)) ∧
          ((h = 0 → pb = defaultPixel) ∧ (h ≠ 0 → prev.get? j = some pb)) ∧
          ((j = 0 ∨ h = 0 → pc = defaultPixel) ∧
            (¬(j = 0 ∨ h = 0) → prev.get? (j - 1) = some pc)) ∧
          out.get? j = decode_pixel ct ft data (idx + (j - w) * cl) pa pb pc) := by
  intro n
  induction n with
  | zero =>
    intro cur idx w out hlen hrun
    simp only [decode_row_aux] at hrun
    injection hrun with h'
    subst h'
    exact ⟨by omega, fun j _ => rfl, fun j hj1 hj2 => absurd hj2 (by omega)⟩
  | succ n ih =>
    intro cur idx w out hlen hrun
    simp only [decode_row_aux, Option.bind_eq_some] at hrun
    obtain ⟨pa, hpa, pb, hpb, pc, hpc, px, hpx, hrec⟩ := hrun
    have hlen2 : (cur ++ [px]).length = w + 1 := by simp [hlen]
    obtain ⟨H1, H2, H3⟩ := ih (cur ++ [px]) (idx + cl) (w + 1) out hlen2 hrec
    refine ⟨by omega, ?_, ?_⟩
    · intro j hj
      rw [H2 j (by omega)]
      exact get?_append_of_lt _ _ _ (by omega)
    · intro j hj1 hj2
      rcases eq_or_lt_of_le hj1 with rfl | hlt
      · refine ⟨pa, pb, pc, ⟨?_, ?_⟩, ⟨?_, ?_⟩, ⟨?_, ?_⟩, ?_⟩
        · intro hj0
          rw [if_pos hj0] at hpa
          injection hpa with h'
          exact h'.symm
        · intro hj0
          rw [if_neg hj0] at hpa
          rw [H2 (w - 1) (by omega), get?_append_of_lt _ _ _ (by omega)]
          exact hpa
        · intro hh0
          rw [if_pos hh0] at hpb
          injection hpb with h'
          exact h'.symm
        · intro hh0
          rw [if_neg hh0] at hpb
          exact hpb
        · intro hwh
          rw [if_pos hwh] at hpc
          injection hpc with h'
          exact h'.symm
        · intro hwh
          rw [if_neg hwh] at hpc
          exact hpc
        · have e1 : out.get? w = (cur ++ [px]).get? w := H2 w (by omega)
          have e2 : (cur ++ [px]).get? w = some px := by
            rw [← hlen]
            exact get?_snoc_length _ _
          rw [e1, e2]
          simp only [Nat.sub_self, Nat.zero_mul, Nat.add_zero]
          exact hpx.symm
      · obtain ⟨pa', pb', pc', ea, eb, ec, he⟩ := H3 j (by omega) (by omega)
        refine ⟨pa', pb', pc', ea, eb, ec, ?_⟩
        have harith : idx + cl + (j - (w + 1)) * cl = idx + (j - w) * cl := by
          obtain ⟨k, rfl⟩ : ∃ k, j = w + 1 + k := ⟨j - (w + 1), by omega⟩
          have e1 : w + 1 + k - (w + 1) = k := by omega
          have e2 : w + 1 + k - w = k + 1 := by omega
          rw [e1, e2, Nat.succ_mul]
          ring
        rw [← harith]
        exact he

/-- Loop invariant of the outer row loop: on success the grid extends `acc`
by `n` rows; row `j` is produced by `decode_row` at row index `j` whose
`prev` argument is row `j - 1` of the grid itself (the empty list for row
0, where it is never consulted). -/
theorem decode_rows_loop_spec (ct cl : Nat) (data : List Nat) (W : Nat) :
    ∀ n h acc prev g,
      acc.length = h →
      (h = 0 → prev = []) →
      (h ≠ 0 → acc.get? (h - 1) = some prev) →
      decode_rows_loop ct cl data W n h acc prev = some g →
      g.length = h + n ∧
      (∀ j, j < h → g.get? j = acc.get? j) ∧
      (∀ j, h ≤ j → j < h + n →
        ∃ row pr, g.get? j = some row ∧
          (j = 0 → pr = []) ∧ (j ≠ 0 → g.get? (j - 1) = some pr) ∧
          decode_row ct cl data W j pr = some row) := by
  intro n
  induction n with
  | zero =>
    intro h acc prev g hlen h0 hprev hrun
    simp only [decode_rows_loop] at hrun
    injection hrun with h'
    subst h'
    exact ⟨by omega, fun j _ => rfl, fun j hj1 hj2 => absurd hj2 (by omega)⟩
  | succ n ih =>
    intro h acc prev g hlen h0 hprev hrun
    simp only [decode_rows_loop, Option.bind_eq_some] at hrun
    obtain ⟨row, hrow, hrec⟩ := hrun
    have hlen2 : (acc ++ [row]).length = h + 1 := by simp [hlen]
    have hprev2 : h + 1 ≠ 0 → (acc ++ [row]).get? (h + 1 - 1) = some row := by
      intro _
      have e : h + 1 - 1 = h := by omega
      rw [e, ← hlen]
      exact get?_snoc_length _ _
    obtain ⟨H1, H2, H3⟩ :=
      ih (h + 1) (acc ++ [row]) row g hlen2 (by omega) hprev2 hrec
    refine ⟨by omega, ?_, ?_⟩
    · intro j hj
      rw [H2 j (by omega)]
      exact get?_append_of_lt _ _ _ (by omega)
    · intro j hj1 hj2
      rcases eq_or_lt_of_le hj1 with rfl | hlt
      · refine ⟨row, prev, ?_, h0, ?_, hrow⟩
        · rw [H2 h (by omega), ← hlen]
          exact get?_snoc_length _ _
        · intro hh0
          rw [H2 (h - 1) (by omega), get?_append_of_lt _ _ _ (by omega)]
          exact hprev hh0
      · obtain ⟨row', pr', e1, e2, e3, e4⟩ := H3 j (by omega) (by omega)
        exact ⟨row', pr', e1, e2, e3, e4⟩

/-! ## Claim theorems -/

/-- Claim C1: for every filter type in `{0,1,2,3,4}` and all byte inputs,
`remove_filter` returns `x` (None), `(x + a) % 256` (Sub), `(x + b) % 256`
(Up), `(x + (a + b) / 2) % 256` (Average, the division truncating on the
non-negative sum), and `(x + paeth a b c) % 256` (Paeth) respectively. -/
theorem remove_filter_cases (x a b c : Nat)
    (hx : x < 256) (ha : a < 256) (hb : b < 256) (hc : c < 256) :
    remove_filter 0 x a b c = x ∧
    remove_filter 1 x a b c = (x + a) % 256 ∧
    remove_filter 2 x a b c = (x + b) % 256 ∧
    remove_filter 3 x a b c = (x + (a + b) / 2) % 256 ∧
    remove_filter 4 x a b c = (x + paeth a b c) % 256 := by
  refine ⟨rfl, ?_, ?_, ?_, ?_⟩
  · simp only [remove_filter]; omega
  · simp only [remove_filter]; omega
  · simp only [remove_filter]; omega
  · simp only [remove_filter]
    generalize paeth a b c = p
    omega

/-- Claim C1 witness. -/
theorem remove_filter_cases_witness :
    remove_filter 0 9 1 2 3 = 9 ∧
    remove_filter 1 9 1 2 3 = (9 + 1) % 256 ∧
    remove_filter 2 9 1 2 3 = (9 + 2) % 256 ∧
    remove_filter 3 9 1 2 3 = (9 + (1 + 2) / 2) % 256 ∧
    remove_filter 4 9 1 2 3 = (9 + paeth 1 2 3) % 256 :=
  remove_filter_cases 9 1 2 3 (by decide) (by decide) (by decide) (by decide)

/-- Claim C2: the Paeth predictor computes `p = a + b - c` exactly in wide
signed arithmetic and returns the element of `{a,b,c}` with smallest
absolute difference from `p`, ties preferring `a` over `b` over `c`; in
particular `paeth 10 10 10 = 10` and `paeth 0 0 255 = 0`. -/
theorem paeth_min_tiebreak (a b c : Nat)
    (ha : a < 256) (hb : b < 256) (hc : c < 256) :
    (((((a : Int) + b - c) - a).natAbs ≤ (((a : Int) + b - c) - b).natAbs ∧
      (((a : Int) + b - c) - a).natAbs ≤ (((a : Int) + b - c) - c).natAbs ∧
      paeth a b c = a) ∨
     ((((a : Int) + b - c) - b).natAbs < (((a : Int) + b - c) - a).natAbs ∧
      (((a : Int) + b - c) - b).natAbs ≤ (((a : Int) + b - c) - c).natAbs ∧
      paeth a b c = b) ∨
     ((((a : Int) + b - c) - c).natAbs < (((a : Int) + b - c) - a).natAbs ∧
      (((a : Int) + b - c) - c).natAbs < (((a : Int) + b - c) - b).natAbs ∧
      paeth a b c = c)) ∧
    paeth 10 10 10 = 10 ∧ paeth 0 0 255 = 0 := by
  refine ⟨?_, by decide, by decide⟩
  simp only [paeth]
  split_ifs with h1 h2
  · exact Or.inl ⟨h1.1, h1.2, Nat.mod_eq_of_lt ha⟩
  · refine Or.inr (Or.inl ⟨?_, h2, Nat.mod_eq_of_lt hb⟩)
    omega
  · refine Or.inr (Or.inr ⟨?_, by omega, Nat.mod_eq_of_lt hc⟩)
    omega

/-- Claim C2 witness. -/
theorem paeth_min_tiebreak_witness :
    paeth 10 10 10 = 10 ∧ paeth 0 0 255 = 0 :=
  ⟨(paeth_min_tiebreak 10 10 10 (by decide) (by decide) (by decide)).2.1,
   (paeth_min_tiebreak 0 0 255 (by decide) (by decide) (by decide)).2.2⟩

/-- Claim C3: for every filter type in `{0,1,2,3,4}`, forward-filtering a raw
byte (subtracting the type's prediction mod 256) and then defiltering with
`remove_filter` under the same neighbours recovers the raw byte: filter and
defilter are mutual inverses modulo 256. -/
theorem remove_filter_apply_filter (t r a b c : Nat) (ht : t < 5)
    (hr : r < 256) (ha : a < 256) (hb : b < 256) (hc : c < 256) :
    remove_filter t (apply_filter t r a b c) a b c = r := by
  interval_cases t
  · simp only [remove_filter, apply_filter]; omega
  · simp only [remove_filter, apply_filter]; omega
  · simp only [remove_filter, apply_filter]; omega
  · simp only [remove_filter, apply_filter]; omega
  · simp only [remove_filter, apply_filter]
    generalize paeth a b c = p
    omega

/-- Claim C3 witness. -/
theorem remove_filter_apply_filter_witness :
    remove_filter 4 (apply_filter 4 200 10 20 30) 10 20 30 = 200 :=
  remove_filter_apply_filter 4 200 10 20 30 (by decide) (by decide)
    (by decide) (by decide) (by decide)

/-- Claim C5: the colour-model resolution per pixel.  With the channel bytes
`x0 x1 x2 x3` present at the pixel's offset, colour type 0 yields the
reconstructed grey in r, g and b with alpha 255; type 4 adds the
reconstructed alpha; type 2 yields the three reconstructed colour channels
with alpha 255; type 6 keeps all four reconstructed channels — alpha 255 is
synthesized exactly for the alpha-less types 0 and 2. -/
theorem decode_pixel_color_model (ft idx : Nat) (data : List Nat)
    (a b c : Pixel) (x0 x1 x2 x3 : Nat)
    (h0 : data.get? idx = some x0) (h1 : data.get? (idx + 1) = some x1)
    (h2 : data.get? (idx + 2) = some x2) (h3 : data.get? (idx + 3) = some x3) :
    decode_pixel 0 ft data idx a b c =
      some ⟨remove_filter ft x0 a.r b.r c.r, remove_filter ft x0 a.r b.r c.r,
            remove_filter ft x0 a.r b.r c.r, 255⟩ ∧
    decode_pixel 4 ft data idx a b c =
      some ⟨remove_filter ft x0 a.r b.r c.r, remove_filter ft x0 a.r b.r c.r,
            remove_filter ft x0 a.r b.r c.r, remove_filter ft x1 a.a b.a c.a⟩ ∧
    decode_pixel 2 ft data idx a b c =
      some ⟨remove_filter ft x0 a.r b.r c.r, remove_filter ft x1 a.g b.g c.g,
            remove_filter ft x2 a.b b.b c.b, 255⟩ ∧
    decode_pixel 6 ft data idx a b c =
      some ⟨remove_filter ft x0 a.r b.r c.r, remove_filter ft x1 a.g b.g c.g,
            remove_filter ft x2 a.b b.b c.b, remove_filter ft x3 a.a b.a c.a⟩ := by
  simp only [List.get?_eq_getElem?] at h0 h1 h2 h3
  refine ⟨?_, ?_, ?_, ?_⟩ <;>
    simp [decode_pixel, h0, h1, h2, h3]

/-- Claim C5 witness. -/
theorem decode_pixel_color_model_witness :
    decode_pixel 0 0 [128, 20, 30, 40] 0 defaultPixel defaultPixel defaultPixel =
      some ⟨128, 128, 128, 255⟩ ∧
    decode_pixel 6 0 [10, 20, 30, 40] 0 defaultPixel defaultPixel defaultPixel =
      some ⟨10, 20, 30, 40⟩ :=
  ⟨(decode_pixel_color_model 0 0 [128, 20, 30, 40] defaultPixel defaultPixel
      defaultPixel 128 20 30 40 rfl rfl rfl rfl).1,
   (decode_pixel_color_model 0 0 [10, 20, 30, 40] defaultPixel defaultPixel
      defaultPixel 10 20 30 40 rfl rfl rfl rfl).2.2.2⟩

/-- Claim C7 counterexample: on an image whose single row carries the
out-of-range filter-type byte 5, decoding succeeds (no `InvalidFilterType`
failure exists in the code); `remove_filter` silently falls back to 0, so
the pixel comes out as `⟨0,0,0,255⟩` instead of decoding failing. -/
theorem decode_unknown_filter_succeeds :
    decode_image_data (fun _ => some [5, 123])
      { PngReader.new with colour_type := 0, width := 1, height := 1 } =
      some [[⟨0, 0, 0, 255⟩]] := by decide

/-- Claim C7 amended: for every filter-type byte outside `{0,1,2,3,4}`,
`remove_filter` returns 0 regardless of its other inputs — a silent
fallback; decoding does not fail on such a row. -/
theorem remove_filter_unknown_zero (t x a b c : Nat) (ht : 4 < t) :
    remove_filter t x a b c = 0 := by
  match t, ht with
  | n + 5, _ => rfl

/-- Claim C7 amended witness. -/
theorem remove_filter_unknown_zero_witness :
    remove_filter 7 200 1 2 3 = 0 :=
  remove_filter_unknown_zero 7 200 1 2 3 (by decide)

/-- Claim C4: in a successfully reconstructed grid, the pixel at row `h`,
column `w` is produced by the per-pixel decoder from the row's filter-type
byte and the neighbour context consisting of the already-reconstructed
left pixel `(h, w-1)`, up pixel `(h-1, w)` and upper-left pixel
`(h-1, w-1)` of the same grid, with the all-zero default pixel (all
channels 0) when `w = 0`, `h = 0`, or both, respectively. -/
theorem decode_neighbor_context (ct cl W H : Nat) (data : List Nat)
    (g : List (List Pixel)) (hcl : color_len ct = some cl)
    (hg : decode_rows ct cl data W H = some g)
    (h w : Nat) (hh : h < H) (hw : w < W) :
    ∃ ft row pa pb pc,
      data.get? ((W * cl + 1) * h) = some ft ∧
      g.get? h = some row ∧
      ((w = 0 → pa = defaultPixel) ∧ (w ≠ 0 → row.get? (w - 1) = some pa)) ∧
      ((h = 0 → pb = defaultPixel) ∧
        (h ≠ 0 → ∃ prow, g.get? (h - 1) = some prow ∧
          prow.get? w = some pb)) ∧
      ((w = 0 ∨ h = 0 → pc = defaultPixel) ∧
        (¬(w = 0 ∨ h = 0) → ∃ prow, g.get? (h - 1) = some prow ∧
          prow.get? (w - 1) = some pc)) ∧
      row.get? w =
        decode_pixel ct ft data ((W * cl + 1) * h + 1 + w * cl) pa pb pc := by
  obtain ⟨_, _, H3⟩ :=
    decode_rows_loop_spec ct cl data W H 0 [] [] g rfl (fun _ => rfl)
      (fun hc => absurd rfl hc) hg
  obtain ⟨row, pr, hrow, hpr0, hprS, hdr⟩ := H3 h (by omega) (by omega)
  simp only [decode_row, Option.bind_eq_some] at hdr
  obtain ⟨ft, hft, haux⟩ := hdr
  obtain ⟨A1, A2, A3⟩ :=
    decode_row_aux_spec ct ft cl data h pr W [] ((W * cl + 1) * h + 1) 0 row
      rfl haux
  obtain ⟨pa, pb, pc, ⟨a0, aS⟩, ⟨b0, bS⟩, ⟨c0, cS⟩, heq⟩ :=
    A3 w (by omega) (by omega)
  refine ⟨ft, row, pa, pb, pc, hft, hrow, ⟨a0, aS⟩, ⟨b0, ?_⟩, ⟨c0, ?_⟩, ?_⟩
  · intro hh0
    exact ⟨pr, hprS hh0, bS hh0⟩
  · intro hwh
    push_neg at hwh
    exact ⟨pr, hprS hwh.2, cS (by tauto)⟩
  · exact heq

/-- Claim C4 witness. -/
theorem decode_neighbor_context_witness :
    ∃ ft row pa pb pc,
      ([0, 10, 20, 2, 5, 7] : List Nat).get? ((2 * 1 + 1) * 1) = some ft ∧
      ([[⟨10, 10, 10, 255⟩, ⟨20, 20, 20, 255⟩],
        [⟨15, 15, 15, 255⟩, ⟨27, 27, 27, 255⟩]] :
          List (List Pixel)).get? 1 = some row ∧
      (((1 : Nat) = 0 → pa = defaultPixel) ∧
        ((1 : Nat) ≠ 0 → row.get? (1 - 1) = some pa)) ∧
      (((1 : Nat) = 0 → pb = defaultPixel) ∧
        ((1 : Nat) ≠ 0 →
          ∃ prow,
            ([[⟨10, 10, 10, 255⟩, ⟨20, 20, 20, 255⟩],
              [⟨15, 15, 15, 255⟩, ⟨27, 27, 27, 255⟩]] :
                List (List Pixel)).get? (1 - 1) = some prow ∧
            prow.get? 1 = some pb)) ∧
      (((1 : Nat) = 0 ∨ (1 : Nat) = 0 → pc = defaultPixel) ∧
        (¬((1 : Nat) = 0 ∨ (1 : Nat) = 0) →
          ∃ prow,
            ([[⟨10, 10, 10, 255⟩, ⟨20, 20, 20, 255⟩],
              [⟨15, 15, 15, 255⟩, ⟨27, 27, 27, 255⟩]] :
                List (List Pixel)).get? (1 - 1) = some prow ∧
            prow.get? (1 - 1) = some pc)) ∧
      row.get? 1 =
        decode_pixel 0 ft [0, 10, 20, 2, 5, 7] ((2 * 1 + 1) * 1 + 1 + 1 * 1)
          pa pb pc :=
  decode_neighbor_context 0 1 2 2 [0, 10, 20, 2, 5, 7]
    [[⟨10, 10, 10, 255⟩, ⟨20, 20, 20, 255⟩],
     [⟨15, 15, 15, 255⟩, ⟨27, 27, 27, 255⟩]]
    rfl (by decide) 1 1 (by decide) (by decide)

/-- Claim C6: whenever decoding succeeds, the produced grid has exactly
`height` rows and every row has length exactly `width` — no ragged rows. -/
theorem decode_grid_dims (inflate : List Nat → Option (List Nat))
    (st : PngReader) (g : List (List Pixel))
    (hg : decode_image_data inflate st = some g) :
    g.length = st.height ∧ ∀ row ∈ g, row.length = st.width := by
  simp only [decode_image_data, decode_rows, Option.bind_eq_some] at hg
  obtain ⟨data, hdata, cl, hcl, hrows⟩ := hg
  obtain ⟨H1, _, H3⟩ :=
    decode_rows_loop_spec st.colour_type cl data st.width st.height 0 [] [] g
      rfl (fun _ => rfl) (fun hc => absurd rfl hc) hrows
  refine ⟨by omega, ?_⟩
  intro row hrow
  obtain ⟨j, hj⟩ := List.mem_iff_getElem?.mp hrow
  have hj' : g.get? j = some row := by
    simpa [List.get?_eq_getElem?] using hj
  have hjlt : j < st.height := by
    have := get?_lt_of_some g j row hj'
    omega
  obtain ⟨row', pr, hrow', _, _, hdr⟩ := H3 j (by omega) (by omega)
  have hre : row' = row := by
    rw [hj'] at hrow'
    injection hrow' with h'
    exact h'.symm
  subst hre
  simp only [decode_row, Option.bind_eq_some] at hdr
  obtain ⟨ft, _, haux⟩ := hdr
  obtain ⟨A1, _, _⟩ :=
    decode_row_aux_spec st.colour_type ft cl data j pr st.width []
      ((st.width * cl + 1) * j + 1) 0 row' rfl haux
  omega

/-- Claim C6 witness. -/
theorem decode_grid_dims_witness :
    ([[⟨77, 77, 77, 255⟩]] : List (List Pixel)).length =
      PngReader.height { PngReader.new with colour_type := 0, width := 1, height := 1 } ∧
    ∀ row ∈ ([[⟨77, 77, 77, 255⟩]] : List (List Pixel)),
      row.length =
        PngReader.width { PngReader.new with colour_type := 0, width := 1, height := 1 } :=
  decode_grid_dims (fun _ => some [0, 77])
    { PngReader.new with colour_type := 0, width := 1, height := 1 }
    [[⟨77, 77, 77, 255⟩]] (by decide)

/-- For colour type 3 the per-pixel match has no arm, so every cell keeps
the pre-pushed default pixel and no data byte is read for it. -/
theorem decode_row_aux_ct3 (ft cl : Nat) (data : List Nat) (h : Nat)
    (prev : List Pixel) (W : Nat) :
    ∀ n cur idx w, cur.length = w → w + n ≤ W →
      (h ≠ 0 → prev.length = W) →
      decode_row_aux 3 ft cl data h prev n cur idx w =
        some (cur ++ List.replicate n defaultPixel) := by
  intro n
  induction n with
  | zero =>
    intro cur idx w h1 h2 h3
    simp [decode_row_aux]
  | succ n ih =>
    intro cur idx w h1 h2 h3
    simp only [decode_row_aux]
    obtain ⟨pa, hpa⟩ : ∃ pa,
        (if w = 0 then some defaultPixel else cur.get? (w - 1)) = some pa := by
      split_ifs with hw
      · exact ⟨defaultPixel, rfl⟩
      · exact get?_some_of_lt _ _ (by omega)
    obtain ⟨pb, hpb⟩ : ∃ pb,
        (if h = 0 then some defaultPixel else prev.get? w) = some pb := by
      split_ifs with hh
      · exact ⟨defaultPixel, rfl⟩
      · exact get?_some_of_lt _ _ (by have := h3 hh; omega)
    obtain ⟨pc, hpc⟩ : ∃ pc,
        (if w = 0 ∨ h = 0 then some defaultPixel else prev.get? (w - 1)) =
          some pc := by
      split_ifs with hwh
      · exact ⟨defaultPixel, rfl⟩
      · push_neg at hwh
        exact get?_some_of_lt _ _ (by have := h3 hwh.2; omega)
    rw [hpa, hpb, hpc]
    simp only [Option.some_bind]
    have hdp : decode_pixel 3 ft data idx pa pb pc = some defaultPixel := rfl
    rw [hdp]
    simp only [Option.some_bind]
    rw [ih (cur ++ [defaultPixel]) (idx + cl) (w + 1) (by simp [h1])
      (by omega) h3]
    simp [List.replicate_succ]

/-- The row loop for colour type 3 produces only rows of default pixels,
one per iteration, reading nothing but each row's filter-type byte. -/
theorem decode_rows_loop_ct3 (cl : Nat) (data : List Nat) (W : Nat) :
    ∀ n h acc prev,
      (h ≠ 0 → prev.length = W) →
      (∀ j, h ≤ j → j < h + n → (W * cl + 1) * j < data.length) →
      decode_rows_loop 3 cl data W n h acc prev =
        some (acc ++ List.replicate n (List.replicate W defaultPixel)) := by
  intro n
  induction n with
  | zero =>
    intro h acc prev h1 h2
    simp [decode_rows_loop]
  | succ n ih =>
    intro h acc prev h1 h2
    simp only [decode_rows_loop]
    obtain ⟨ft, hft⟩ := get?_some_of_lt data ((W * cl + 1) * h)
      (h2 h le_rfl (by omega))
    have hrow : decode_row 3 cl data W h prev =
        some (List.replicate W defaultPixel) := by
      simp only [decode_row]
      rw [hft]
      simp only [Option.some_bind]
      rw [decode_row_aux_ct3 ft cl data h prev W W [] ((W * cl + 1) * h + 1) 0
        rfl (by omega) h1]
      simp
    rw [hrow]
    simp only [Option.some_bind]
    rw [ih (h + 1) (acc ++ [List.replicate W defaultPixel])
      (List.replicate W defaultPixel) (fun _ => by simp)
      (fun j hj1 hj2 => h2 j (by omega) (by omega))]
    simp [List.replicate_succ]

/-- Claim C10: for a header declaring colour type 3 (indexed), decoding
runs with a channel stride of 1 byte per pixel (`color_len 3 = some 1`) but
writes no pixel values: provided each row's filter-type byte is in range,
it completes and every cell of the `height × width` grid is the default
pixel `⟨0,0,0,0⟩`, independent of the decompressed data bytes. -/
theorem decode_indexed_all_default (inflate : List Nat → Option (List Nat))
    (st : PngReader) (data : List Nat)
    (hct : st.colour_type = 3)
    (hinf : inflate st.image_data = some data)
    (hlen : ∀ h, h < st.height → (st.width * 1 + 1) * h < data.length) :
    color_len 3 = some 1 ∧
    decode_image_data inflate st =
      some (List.replicate st.height (List.replicate st.width defaultPixel)) := by
  refine ⟨rfl, ?_⟩
  simp only [decode_image_data, hinf, hct, Option.some_bind]
  have hcl : color_len 3 = some 1 := rfl
  rw [hcl]
  simp only [Option.some_bind, decode_rows]
  rw [decode_rows_loop_ct3 1 data st.width st.height 0 [] []
    (fun hc => absurd rfl hc) (fun j hj1 hj2 => hlen j (by omega))]
  simp

/-- Claim C10 witness. -/
theorem decode_indexed_all_default_witness :
    color_len 3 = some 1 ∧
    decode_image_data (fun _ => some [7, 99])
      { PngReader.new with colour_type := 3, width := 1, height := 1 } =
      some (List.replicate 1 (List.replicate 1 defaultPixel)) :=
  decode_indexed_all_default (fun _ => some [7, 99])
    { PngReader.new with colour_type := 3, width := 1, height := 1 }
    [7, 99] rfl rfl (by decide)

theorem slice?_eq_some (l : List Nat) (s e : Nat) (hse : s ≤ e)
    (hel : e ≤ l.length) :
    slice? l s e = some ((l.drop s).take (e - s)) := by
  simp [slice?, hse, hel]

theorem slice?_eq_none (l : List Nat) (s e : Nat) (hel : l.length < e) :
    slice? l s e = none := by
  simp only [slice?, ite_eq_right_iff]
  intro hc
  omega

/-- Claim C8 counterexample: at a chunk boundary with `L = 0` and only 8
bytes remaining — fewer than the `8 + L + 4 = 12` the claim requires — the
parser does not fail: the 4 checksum bytes are skipped without being read,
so `read_chunk` succeeds and returns cursor 12. -/
theorem read_chunk_short_checksum_ok :
    ([0, 0, 0, 0, 73, 69, 78, 68] : List Nat).length < 8 + 0 + 4 ∧
    read_chunk [0, 0, 0, 0, 73, 69, 78, 68] PngReader.new 0 =
      some (PngReader.new, 12) :=
  ⟨by decide, by decide⟩

/-- Claim C8 amended: with `L` the declared big-endian length, `read_chunk`
fails whenever fewer than `8 + L` bytes remain at the chunk boundary (by an
out-of-range access — the code defines no `TruncatedChunk` error value);
the 4 trailing checksum bytes are skipped without being read, so their
absence alone does not cause failure.  When at least `8 + L` bytes remain,
the 4-byte type tag is valid UTF-8 and the dispatched chunk handler
succeeds on the payload, the cursor advances by exactly `4 + 4 + L + 4`. -/
theorem read_chunk_truncation_advance (bytes : List Nat) (st : PngReader)
    (idx b0 b1 b2 b3 : Nat)
    (h0 : bytes.get? idx = some b0) (h1 : bytes.get? (idx + 1) = some b1)
    (h2 : bytes.get? (idx + 2) = some b2)
    (h3 : bytes.get? (idx + 3) = some b3) :
    (bytes.length < idx + 8 + be_u32 b0 b1 b2 b3 →
      read_chunk bytes st idx = none) ∧
    (∀ tag data st1,
      idx + 8 + be_u32 b0 b1 b2 b3 ≤ bytes.length →
      slice? bytes (idx + 4) (idx + 8) = some tag →
      utf8Valid tag = true →
      slice? bytes (idx + 8) (idx + 8 + be_u32 b0 b1 b2 b3) = some data →
      dispatch_chunk st tag data = some st1 →
      read_chunk bytes st idx =
        some (st1, idx + 4 + 4 + be_u32 b0 b1 b2 b3 + 4)) := by
  constructor
  · intro hlt
    simp only [read_chunk, h0, h1, h2, h3, Option.some_bind]
    by_cases hsz : idx + 8 ≤ bytes.length
    · rw [slice?_eq_some bytes (idx + 4) (idx + 8) (by omega) hsz]
      simp only [Option.some_bind]
      by_cases hutf :
          utf8Valid ((bytes.drop (idx + 4)).take (idx + 8 - (idx + 4))) = true
      · rw [if_pos hutf,
          slice?_eq_none bytes (idx + 8) (idx + 8 + be_u32 b0 b1 b2 b3)
            (by omega)]
        rfl
      · rw [if_neg hutf]
    · rw [slice?_eq_none bytes (idx + 4) (idx + 8) (by omega)]
      rfl
  · intro tag data st1 hsz htag hutf hdata hdisp
    simp only [read_chunk, h0, h1, h2, h3, htag, Option.some_bind]
    rw [if_pos hutf, hdata]
    simp only [Option.some_bind]
    rw [hdisp]
    simp only [Option.some_bind, Option.some.injEq, Prod.mk.injEq]

/-- Claim C8 amended witness. -/
theorem read_chunk_truncation_advance_witness :
    (([0, 0, 0, 0, 73, 69, 78, 68] : List Nat).length <
        0 + 8 + be_u32 0 0 0 0 →
      read_chunk [0, 0, 0, 0, 73, 69, 78, 68] PngReader.new 0 = none) ∧
    (∀ tag data st1,
      0 + 8 + be_u32 0 0 0 0 ≤ ([0, 0, 0, 0, 73, 69, 78, 68] : List Nat).length →
      slice? [0, 0, 0, 0, 73, 69, 78, 68] (0 + 4) (0 + 8) = some tag →
      utf8Valid tag = true →
      slice? [0, 0, 0, 0, 73, 69, 78, 68] (0 + 8) (0 + 8 + be_u32 0 0 0 0) =
        some data →
      dispatch_chunk PngReader.new tag data = some st1 →
      read_chunk [0, 0, 0, 0, 73, 69, 78, 68] PngReader.new 0 =
        some (st1, 0 + 4 + 4 + be_u32 0 0 0 0 + 4)) :=
  read_chunk_truncation_advance [0, 0, 0, 0, 73, 69, 78, 68] PngReader.new
    0 0 0 0 0 rfl rfl rfl rfl

/-- Claim C9 counterexample: the header is not immutable after the first
IHDR — a second IHDR chunk (here declaring width 2) overwrites a header
whose width is already 1; and no ordering check exists — an IDAT payload
chunk processed before any IHDR succeeds and is simply accumulated. -/
theorem read_chunk_second_ihdr_overwrites :
    (read_chunk [0, 0, 0, 13, 73, 72, 68, 82, 0, 0, 0, 2, 0, 0, 0, 1,
        8, 0, 0, 0, 0] { PngReader.new with width := 1 } 0).map
        (fun p => p.1.width) = some 2 ∧
    ({ PngReader.new with width := 1 } : PngReader).width = 1 ∧
    read_chunk [0, 0, 0, 2, 73, 68, 65, 84, 9, 9] PngReader.new 0 =
      some ({ PngReader.new with image_data := [9, 9] }, 14) :=
  ⟨by decide, rfl, by decide⟩

/-- Claim C9 amended: processing any chunk whose 4-byte type tag is not
`IHDR` leaves all seven header fields unchanged; an IHDR chunk, by
contrast, always reassigns them (see the counterexample), and no check
rejects payload chunks that precede the header. -/
theorem read_chunk_non_ihdr_header_invariant (bytes : List Nat)
    (st st1 : PngReader) (idx idx1 : Nat) (tag : List Nat)
    (htag : slice? bytes (idx + 4) (idx + 8) = some tag)
    (hne : tag ≠ IHDR_tag)
    (h : read_chunk bytes st idx = some (st1, idx1)) :
    st1.width = st.width ∧ st1.height = st.height ∧
    st1.bit_depth = st.bit_depth ∧ st1.colour_type = st.colour_type ∧
    st1.compression_method = st.compression_method ∧
    st1.filter_method = st.filter_method ∧
    st1.interlace_method = st.interlace_method := by
  simp only [read_chunk, Option.bind_eq_some] at h
  obtain ⟨b0, hb0, b1, hb1, b2, hb2, b3, hb3, tag', htag', hrest⟩ := h
  rw [htag] at htag'
  injection htag' with he
  subst he
  by_cases hutf : utf8Valid tag = true
  · rw [if_pos hutf] at hrest
    simp only [Option.bind_eq_some] at hrest
    obtain ⟨data, hdata, st2, hdisp, hfin⟩ := hrest
    simp only [Option.some.injEq, Prod.mk.injEq] at hfin
    obtain ⟨hst, -⟩ := hfin
    subst hst
    simp only [dispatch_chunk, if_neg hne] at hdisp
    split_ifs at hdisp with hB hC hD
    · injection hdisp with h'
      subst h'
      simp [read_chunk_idat]
    · obtain ⟨u, hu, h'⟩ := Option.map_eq_some'.mp hdisp
      subst h'
      simp
    · obtain ⟨u, hu, h'⟩ := Option.map_eq_some'.mp hdisp
      subst h'
      simp
    · injection hdisp with h'
      subst h'
      simp
  · rw [if_neg hutf] at hrest
    exact absurd hrest (by simp)

/-- Claim C9 amended witness. -/
theorem read_chunk_non_ihdr_header_invariant_witness :
    (PngReader.mk 1 2 3 4 5 6 7 []).width = (PngReader.mk 1 2 3 4 5 6 7 []).width ∧
    (PngReader.mk 1 2 3 4 5 6 7 []).height = (PngReader.mk 1 2 3 4 5 6 7 []).height ∧
    (PngReader.mk 1 2 3 4 5 6 7 []).bit_depth = (PngReader.mk 1 2 3 4 5 6 7 []).bit_depth ∧
    (PngReader.mk 1 2 3 4 5 6 7 []).colour_type = (PngReader.mk 1 2 3 4 5 6 7 []).colour_type ∧
    (PngReader.mk 1 2 3 4 5 6 7 []).compression_method = (PngReader.mk 1 2 3 4 5 6 7 []).compression_method ∧
    (PngReader.mk 1 2 3 4 5 6 7 []).filter_method = (PngReader.mk 1 2 3 4 5 6 7 []).filter_method ∧
    (PngReader.mk 1 2 3 4 5 6 7 []).interlace_method = (PngReader.mk 1 2 3 4 5 6 7 []).interlace_method :=
  read_chunk_non_ihdr_header_invariant [0, 0, 0, 0, 73, 69, 78, 68]
    (PngReader.mk 1 2 3 4 5 6 7 []) (PngReader.mk 1 2 3 4 5 6 7 []) 0 12
    [73, 69, 78, 68] (by decide) (by decide) (by decide)
